import Mathlib

/-!
Shallow embedding of `calc.py` (cc-pl): a cost-basis accounting engine over
Coincheck trade histories.  The per-asset ledger maps a currency symbol to a
pair `(amount, price)` — quantity held and weighted-average acquisition price.

Modelling conventions:
* Python `Decimal` values are embedded as exact rationals `ℚ`.  The source sets
  `getcontext().prec = 8`; the significant-digit context rounding of
  intermediate operations is abstracted away, matching the spec's reading of
  the arithmetic as exact decimal arithmetic.  `Decimal` division by a zero
  denominator raises (`DivisionByZero` / `InvalidOperation`); the embedding
  returns the error `CalcError.divisionByZero` at exactly those program points.
* The remote price lookup `get_price` is embedded as an oracle function
  `Oracle : String → String → Option ℚ`; `none` stands for any failure of the
  HTTP fetch or a missing key in the response, which in Python raises and
  aborts the run.
* `print` calls are embedded as emitted `Row` values carrying the same fields
  (the display-only `int(...)` truncation of the format string is not applied
  to the stored state, which the source never truncates).
* Python string comparison (`dt >= "2018-01-01"`) is code-point lexicographic;
  `strLt` implements exactly that on `String.data`.
-/

namespace CcPl

/-- Code-point lexicographic `<` on character lists, as Python compares
strings. -/
def charListLt : List Char → List Char → Bool
  | _, [] => false
  | [], _ :: _ => true
  | a :: as, b :: bs =>
    if a.val.toNat < b.val.toNat then true
    else if b.val.toNat < a.val.toNat then false
    else charListLt as bs

/-- Python string `<` (code-point lexicographic). -/
def strLt (a b : String) : Bool := charListLt a.data b.data

/-- Characters before the first space. -/
def takeUntilSpace : List Char → List Char
  | [] => []
  | c :: cs => if c = ' ' then [] else c :: takeUntilSpace cs

/-- `trade["Date"].split(" ")[0]` — the date part of a timestamp string. -/
def datePart (s : String) : String := ⟨takeUntilSpace s.data⟩

/-- The hardcoded cutoff of `calc.py` line 144: events with
`dt >= "2018-01-01"` are skipped. -/
def cutoff : String := "2018-01-01"

/-- One canonical trade item as built by `get_trades`: the dict keys
`Order, Date, Type, Amount, Rate, Price, Trading Currency, Original Currency,
Fee`.  Kinds that lack a key in the Python dict (e.g. `Fee` outside send
items, `Rate` on send/deposit items) carry an unused default here, since the
interpreter only reads the keys the corresponding branch accesses. -/
structure Trade where
  order : String
  date : String
  tradeType : String
  amount : ℚ
  rate : ℚ
  price : ℚ
  tradingCurrency : String
  originalCurrency : String
  fee : ℚ
deriving Repr, DecidableEq

/-- One printed report line of the main loop (columns: order, currency, type,
date, amount, price, profit; `profit = none` renders as the empty string). -/
structure Row where
  order : String
  currency : String
  action : String
  date : String
  amount : ℚ
  price : ℚ
  profit : Option ℚ
deriving Repr, DecidableEq

/-- The ways processing an event can abort: a `Decimal` division with zero
denominator (`DivisionByZero` / `InvalidOperation` trap), or a failed
`get_price` lookup for a (date, currency) pair. -/
inductive CalcError where
  | divisionByZero : CalcError
  | priceUnavailable (date currency : String) : CalcError
deriving Repr, DecidableEq

/-- The `table` dict of `main`: currency symbol ↦ `(amount, price)`. -/
def Ledger : Type := String → Option (ℚ × ℚ)

/-- `table.get(c, (0, 0))`. -/
def Ledger.getD (t : Ledger) (c : String) : ℚ × ℚ := (t c).getD (0, 0)

/-- `table[c] = v`. -/
def Ledger.set (t : Ledger) (c : String) (v : ℚ × ℚ) : Ledger :=
  fun k => if k = c then some v else t k

/-- The empty `table = {}`. -/
def emptyLedger : Ledger := fun _ => none

/-- `get_price(dt, currency)` as an external collaborator: `none` models a
failed lookup (network failure or missing month/date/currency data), which in
the source raises out of `main`. -/
def Oracle : Type := String → String → Option ℚ

/-- Lines 148–154, also reused by the deposit branch (lines 203–208): the
weighted-average accumulation step on one position.  Returns `none` exactly
when the `Decimal` division `(price*amount + rate*delta) / (amount + delta)`
would trap on a zero denominator. -/
def applyBuy (pos : ℚ × ℚ) (rate delta : ℚ) : Option (ℚ × ℚ) :=
  if pos.1 + delta = 0 then none
  else some (pos.1 + delta, (pos.2 * pos.1 + rate * delta) / (pos.1 + delta))

/-- One iteration of the `for trade in get_trades(...)` loop of `main`
(lines 141–213): returns the table after the event, the rows printed during
the event, and the error that aborted it, if any.  Mutations that the Python
code performs before the raising operation are reflected in the returned
table (in particular the send branch updates `table` before `get_price`). -/
def stepTrade (oracle : Oracle) (t : Trade) (table : Ledger) :
    Ledger × List Row × Option CalcError :=
  let dt := datePart t.date
  if strLt dt cutoff = false then
    -- `if dt >= "2018-01-01": continue`
    (table, [], none)
  else if t.tradeType = "buy" then
    let a := table.getD t.tradingCurrency
    match applyBuy a t.rate t.amount with
    | none => (table, [], some CalcError.divisionByZero)
    | some pos =>
      (table.set t.tradingCurrency pos,
       [{ order := t.order, currency := t.tradingCurrency, action := "buy",
          date := dt, amount := pos.1, price := pos.2, profit := none }], none)
  else if t.tradeType = "sell" then
    let a := table.getD t.tradingCurrency
    let amount := a.1 + t.amount
    let profit := (t.rate - a.2) * t.amount * (-1)
    (table.set t.tradingCurrency (amount, a.2),
     [{ order := t.order, currency := t.tradingCurrency, action := "sell",
        date := dt, amount := amount, price := a.2, profit := some profit }], none)
  else if t.tradeType = "exchange" then
    match oracle dt t.originalCurrency with
    | none => (table, [], some (CalcError.priceUnavailable dt t.originalCurrency))
    | some buyPrice =>
      -- 交換元は売却として処理 (the disposed leg, as a sell)
      let buyAmount := t.price * (-1)
      let a := table.getD t.originalCurrency
      let amount := a.1 + buyAmount
      let profit := (buyPrice - a.2) * buyAmount * (-1)
      let table1 := table.set t.originalCurrency (amount, a.2)
      let row1 : Row :=
        { order := t.order ++ "(exchange)", currency := t.originalCurrency,
          action := "sell", date := dt, amount := amount, price := a.2,
          profit := some profit }
      -- 交換先は購入として処理 (the acquired leg, as a buy)
      let b := table1.getD t.tradingCurrency
      if t.amount = 0 then (table1, [row1], some CalcError.divisionByZero)
      else
        let buyRate := buyPrice * buyAmount * (-1) / t.amount
        if b.1 + t.amount = 0 then (table1, [row1], some CalcError.divisionByZero)
        else
          -- line 184: (price * amount + buy_rate) * Amount / (amount + Amount)
          let price2 := (b.2 * b.1 + buyRate) * t.amount / (b.1 + t.amount)
          let amount2 := b.1 + t.amount
          let row2 : Row :=
            { order := t.order ++ "(exchange)", currency := t.tradingCurrency,
              action := "buy", date := dt, amount := amount2, price := price2,
              profit := none }
          (table1.set t.tradingCurrency (amount2, price2), [row1, row2], none)
  else if t.tradeType = "send" then
    let a := table.getD t.tradingCurrency
    let amount := a.1 + t.amount - t.fee
    -- lines 193–196: the table is updated before `get_price` is called
    let table1 := table.set t.tradingCurrency (amount, a.2)
    match oracle dt t.tradingCurrency with
    | none => (table1, [], some (CalcError.priceUnavailable dt t.tradingCurrency))
    | some rate =>
      let profit := t.fee * rate * (-1)
      (table1,
       [{ order := t.order, currency := t.tradingCurrency, action := "send",
          date := dt, amount := amount, price := a.2, profit := some profit }], none)
  else if t.tradeType = "deposit" then
    let a := table.getD t.tradingCurrency
    match oracle dt t.tradingCurrency with
    | none => (table, [], some (CalcError.priceUnavailable dt t.tradingCurrency))
    | some rate =>
      match applyBuy a rate t.amount with
      | none => (table, [], some CalcError.divisionByZero)
      | some pos =>
        (table.set t.tradingCurrency pos,
         [{ order := t.order, currency := t.tradingCurrency, action := "deposit",
            date := dt, amount := pos.1, price := pos.2,
            profit := some (rate * t.amount) }], none)
  else
    -- no matching elif branch: the loop body falls through silently
    (table, [], none)

/-- The whole loop of `main`: processes events in order, accumulating printed
rows, and stops at the first error (an uncaught Python exception aborts the
run; the returned table is the in-memory state at that moment). -/
def processTrades (oracle : Oracle) :
    List Trade → Ledger → List Row → Ledger × List Row × Option CalcError
  | [], table, rows => (table, rows, none)
  | t :: ts, table, rows =>
    match stepTrade oracle t table with
    | (table1, newRows, none) => processTrades oracle ts table1 (rows ++ newRows)
    | (table1, newRows, some e) => (table1, rows ++ newRows, some e)

/-- Sum of the `Amount` fields of a trade list. -/
def sumDeltas (ts : List Trade) : ℚ := (ts.map (fun t => t.amount)).sum

/-- Sum of `Rate * Amount` over a trade list. -/
def weightedSum (ts : List Trade) : ℚ := (ts.map (fun t => t.rate * t.amount)).sum

/-- Spec-side construction (spec sect. 4.1): the disposed leg of an Exchange
event as a Sell item on `counter_asset` at the oracle-fetched rate.  The
disposed quantity is the `Price` field of the exchange item (negated, the
sign convention for disposals). -/
def specSellLeg (t : Trade) (fetchedRate : ℚ) : Trade :=
  { order := t.order, date := t.date, tradeType := "sell",
    amount := t.price * (-1), rate := fetchedRate, price := t.price,
    tradingCurrency := t.originalCurrency, originalCurrency := t.originalCurrency,
    fee := 0 }

/-- Spec-side construction (spec sect. 4.1): the acquired leg of an Exchange
event as a Buy item on `asset` at the derived unit rate
`(fetched_disposal_rate * disposed_quantity) / acquired_quantity`. -/
def specBuyLeg (t : Trade) (fetchedRate : ℚ) : Trade :=
  { order := t.order, date := t.date, tradeType := "buy",
    amount := t.amount, rate := fetchedRate * t.price / t.amount,
    price := t.price, tradingCurrency := t.tradingCurrency,
    originalCurrency := t.originalCurrency, fee := 0 }

/-- One row of `sells.csv` as read by `get_trades` (the keys its sell loop
accesses). -/
structure SellRecord where
  progress : String
  time : String
  amount : ℚ
  price : ℚ
  tradingCurrency : String
  originalCurrency : String
deriving Repr, DecidableEq

/-- One row of `buys.csv` as read by `get_trades` (the keys its buy loop
accesses). -/
structure BuyRecord where
  progress : String
  time : String
  amount : ℚ
  price : ℚ
  tradingCurrency : String
  originalCurrency : String
deriving Repr, DecidableEq

/-- Line 88 of `get_trades`: the `Type` of a sell item reads
`buy["Original Currency"]` — the loop variable left over from the preceding
buys loop, i.e. the LAST element of `buys` (the `completed` filter sits
inside that loop's body, so it does not affect the final loop-variable
value).  With an empty `buys` list the name `buy` is unbound and Python
raises `NameError`, modelled as `none`. -/
def sellItemType (buys : List BuyRecord) : Option String :=
  match buys.getLast? with
  | none => none
  | some b => some (if b.originalCurrency = "JPY" then "sell" else "exchange")

/-- Modelled from the spec (sect. 9, the flagged discrepancy): the intended
`Type` of a sell item, derived from the sell record's OWN original-currency
field. -/
def sellItemTypeSpec (s : SellRecord) : String :=
  if s.originalCurrency = "JPY" then "sell" else "exchange"

/-- An oracle with no data at all: every lookup fails. -/
def noOracle : Oracle := fun _ _ => none

/-- An oracle quoting closing price 1 for every (date, currency) pair. -/
def unitOracle : Oracle := fun _ _ => some 1

/-- An oracle quoting closing price 100 for every (date, currency) pair. -/
def constOracle : Oracle := fun _ _ => some 100

/-- A concrete buy item whose `Amount` exactly cancels the held quantity. -/
def buyNeg : Trade :=
  { order := "trade", date := "2017-09-01", tradeType := "buy", amount := -1,
    rate := 2, price := 2, tradingCurrency := "BTC", originalCurrency := "JPY",
    fee := 0 }

/-- A ledger holding 1 BTC at average cost 5. -/
def tableBTC : Ledger := emptyLedger.set "BTC" (1, 5)

/-- A ledger holding 1 XEM at average cost 1. -/
def tableXEM : Ledger := emptyLedger.set "XEM" (1, 1)

/-- A concrete exchange item: 2 XEM acquired for 1 BTC given up. -/
def exTrade : Trade :=
  { order := "sell", date := "2017-09-01", tradeType := "exchange", amount := 2,
    rate := 0, price := 1, tradingCurrency := "XEM", originalCurrency := "BTC",
    fee := 0 }

/-- A concrete sell item: dispose 2 BTC at rate 7. -/
def sellTr : Trade :=
  { order := "trade", date := "2017-09-02", tradeType := "sell", amount := -2,
    rate := 7, price := 14, tradingCurrency := "BTC", originalCurrency := "JPY",
    fee := 0 }

/-- A concrete send item: send 2 BTC with fee 1/2. -/
def sendTr : Trade :=
  { order := "send", date := "2017-09-03", tradeType := "send", amount := -2,
    rate := 0, price := 0, tradingCurrency := "BTC", originalCurrency := "BTC",
    fee := 1/2 }

/-- A concrete buy item: 1 BTC at rate 2. -/
def tA : Trade :=
  { order := "trade", date := "2017-09-01", tradeType := "buy", amount := 1,
    rate := 2, price := 2, tradingCurrency := "BTC", originalCurrency := "JPY",
    fee := 0 }

/-- A concrete buy item: 3 BTC at rate 4. -/
def tB : Trade :=
  { order := "trade", date := "2017-09-02", tradeType := "buy", amount := 3,
    rate := 4, price := 12, tradingCurrency := "BTC", originalCurrency := "JPY",
    fee := 0 }

/-- A completed buy record whose original currency is BTC (not JPY). -/
def buyRec : BuyRecord :=
  { progress := "completed", time := "2017-09-01 10:00", amount := 1,
    price := 38, tradingCurrency := "XEM", originalCurrency := "BTC" }

/-- A completed sell record whose own original currency is JPY. -/
def sellRec : SellRecord :=
  { progress := "completed", time := "2017-09-02 10:00", amount := 1,
    price := 500000, tradingCurrency := "BTC", originalCurrency := "JPY" }

/-- The report row emitted for `tA` from the empty ledger. -/
def rowA : Row :=
  { order := "trade", currency := "BTC", action := "buy", date := "2017-09-01",
    amount := 1, price := 2, profit := none }

/-! ## General lemmas about the ledger and the processor -/

theorem Ledger.getD_set_self (table : Ledger) (c : String) (v : ℚ × ℚ) :
    (table.set c v).getD c = v := by
  simp [Ledger.set, Ledger.getD]

theorem Ledger.set_ne (table : Ledger) (c k : String) (v : ℚ × ℚ) (h : k ≠ c) :
    table.set c v k = table k := by
  simp [Ledger.set, h]

theorem Ledger.isSome_set (table : Ledger) (c k : String) (v : ℚ × ℚ)
    (h : (table k).isSome = true) : ((table.set c v) k).isSome = true := by
  by_cases hk : k = c <;> simp [Ledger.set, hk, h]

/-- Events dated at or past the cutoff are skipped without touching any
state. -/
theorem stepTrade_skip (oracle : Oracle) (t : Trade) (table : Ledger)
    (h : strLt (datePart t.date) cutoff = false) :
    stepTrade oracle t table = (table, [], none) := by
  simp [stepTrade, h]

/-- Claim C1 (corrected), counterexample: processing a Buy item whose
quantity delta exactly cancels the held quantity aborts with a
division-by-zero error — the accumulation operation is NOT total, contrary
to the claim that the zero-denominator case resolves to a zero average
cost. -/
theorem accumulation_zero_denominator_faults :
    (stepTrade noOracle buyNeg tableBTC).2.2 = some CalcError.divisionByZero := by
  norm_num [stepTrade, applyBuy, Ledger.getD, Ledger.set, emptyLedger, buyNeg,
    tableBTC, noOracle]
  decide

/-- Claim C1 (amended): the accumulation operation is total whenever
`quantity + quantity_delta` is nonzero, returning the summed quantity and the
weighted-average cost; when `quantity + quantity_delta = 0` the Decimal
division traps and the operation yields no result (an error), rather than a
zero average cost. -/
theorem applyBuy_total_off_zero_denominator (q p rate δ : ℚ) :
    (q + δ ≠ 0 → applyBuy (q, p) rate δ =
      some (q + δ, (p * q + rate * δ) / (q + δ))) ∧
    (q + δ = 0 → applyBuy (q, p) rate δ = none) := by
  constructor <;> intro h <;> simp [applyBuy, h]

/-- Witness for the amended C1 at concrete inputs. -/
theorem applyBuy_total_off_zero_denominator_witness :
    applyBuy (1, 5) 2 1 = some (1 + 1, (5 * 1 + 2 * 1) / (1 + 1)) ∧
    applyBuy (1, 5) 2 (-1) = none := by
  constructor
  · exact (applyBuy_total_off_zero_denominator 1 5 2 1).1 (by norm_num)
  · exact (applyBuy_total_off_zero_denominator 1 5 2 (-1)).2 (by norm_num)

/-- Claim C9: accumulation into a zero-quantity Position sets the average
cost exactly to the incoming unit rate and the quantity to the incoming
delta, for every prior average cost and every positive delta. -/
theorem zero_position_accumulation (p rate δ : ℚ) (hδ : 0 < δ) :
    applyBuy (0, p) rate δ = some (δ, rate) := by
  have h : (0 : ℚ) + δ ≠ 0 := by simpa using ne_of_gt hδ
  simp only [applyBuy, h, if_false]
  rw [zero_add, mul_zero, zero_add, mul_div_assoc, div_self (ne_of_gt hδ), mul_one]

/-- Witness for C9 at a concrete input. -/
theorem zero_position_accumulation_witness :
    applyBuy (0, 7) 3 2 = some (2, 3) :=
  zero_position_accumulation 7 3 2 (by norm_num)

/-- Claim C7 (code bug): the `Type` of a sell item is computed from the stale
`buy` loop variable (the last record of `buys.csv`), not from the sell
record's own original-currency field.  At the concrete input the code yields
"exchange" although the sell record's own original currency is JPY, so the
intended derivation gives "sell". -/
theorem sell_type_uses_stale_buy_variable :
    sellItemType [buyRec] = some "exchange" ∧
    sellItemTypeSpec sellRec = "sell" ∧
    sellItemType [buyRec] ≠ some (sellItemTypeSpec sellRec) := by
  refine ⟨rfl, rfl, ?_⟩
  decide

/-- Claim C3: a Sell event with negative delta leaves the average cost
unchanged, decrements the quantity by the disposed amount, and realizes
profit `(unit_rate - average_cost) * |quantity_delta|`, which is zero /
positive / negative according as the unit rate equals / exceeds / undercuts
the average cost. -/
theorem sell_disposal_spec (oracle : Oracle) (table : Ledger) (t : Trade)
    (q p : ℚ) (hty : t.tradeType = "sell")
    (hdt : strLt (datePart t.date) cutoff = true)
    (hqp : table.getD t.tradingCurrency = (q, p)) (hneg : t.amount < 0) :
    stepTrade oracle t table =
      (table.set t.tradingCurrency (q + t.amount, p),
       [{ order := t.order, currency := t.tradingCurrency, action := "sell",
          date := datePart t.date, amount := q + t.amount, price := p,
          profit := some ((t.rate - p) * t.amount * (-1)) }], none) ∧
    (t.rate - p) * t.amount * (-1) = (t.rate - p) * |t.amount| ∧
    (t.rate = p → (t.rate - p) * t.amount * (-1) = 0) ∧
    (p < t.rate → 0 < (t.rate - p) * t.amount * (-1)) ∧
    (t.rate < p → (t.rate - p) * t.amount * (-1) < 0) := by
  refine ⟨?_, ?_, ?_, ?_, ?_⟩
  · simp [stepTrade, hty, hdt, hqp]
  · rw [abs_of_neg hneg]; ring
  · intro h; rw [h]; ring
  · intro h; nlinarith
  · intro h; nlinarith

/-- Witness for C3 at concrete inputs (a sell of 2 BTC at rate 7 against a
position of 1 BTC at average cost 5: profit 4 is positive). -/
theorem sell_disposal_spec_witness :
    stepTrade noOracle sellTr tableBTC =
      (tableBTC.set sellTr.tradingCurrency (1 + sellTr.amount, 5),
       [{ order := sellTr.order, currency := sellTr.tradingCurrency,
          action := "sell", date := datePart sellTr.date,
          amount := 1 + sellTr.amount, price := 5,
          profit := some ((sellTr.rate - 5) * sellTr.amount * (-1)) }], none) ∧
    0 < (sellTr.rate - 5) * sellTr.amount * (-1) := by
  have h := sell_disposal_spec noOracle tableBTC sellTr 1 5 rfl (by decide) rfl
    (by norm_num [sellTr])
  exact ⟨h.1, h.2.2.2.1 (by norm_num [sellTr])⟩

/-- Claim C5: a Send event decrements the quantity by both the sent amount
and the fee, leaves the average cost unchanged, and realizes profit
`-fee * fetched_rate`, independent of the position's average cost. -/
theorem send_fee_spec (oracle : Oracle) (table : Ledger) (t : Trade)
    (q p rate : ℚ) (hty : t.tradeType = "send")
    (hdt : strLt (datePart t.date) cutoff = true)
    (hqp : table.getD t.tradingCurrency = (q, p))
    (hor : oracle (datePart t.date) t.tradingCurrency = some rate) :
    stepTrade oracle t table =
      (table.set t.tradingCurrency (q + t.amount - t.fee, p),
       [{ order := t.order, currency := t.tradingCurrency, action := "send",
          date := datePart t.date, amount := q + t.amount - t.fee, price := p,
          profit := some (t.fee * rate * (-1)) }], none) ∧
    t.fee * rate * (-1) = -(t.fee * rate) := by
  exact ⟨by simp [stepTrade, hty, hdt, hqp, hor], by ring⟩

/-- Witness for C5 at concrete inputs (send 2 BTC with fee 1/2 at fetched
rate 100 from a position of 1 BTC at cost 5). -/
theorem send_fee_spec_witness :
    stepTrade constOracle sendTr tableBTC =
      (tableBTC.set sendTr.tradingCurrency (1 + sendTr.amount - sendTr.fee, 5),
       [{ order := sendTr.order, currency := sendTr.tradingCurrency,
          action := "send", date := datePart sendTr.date,
          amount := 1 + sendTr.amount - sendTr.fee, price := 5,
          profit := some (sendTr.fee * 100 * (-1)) }], none) ∧
    sendTr.fee * 100 * (-1) = -(sendTr.fee * 100) :=
  send_fee_spec constOracle tableBTC sendTr 1 5 100 rfl (by decide) rfl rfl

/-- Claim C2 (code bug): the acquired leg of an Exchange event is NOT the
weighted-average Buy the spec derives.  Starting from 1 XEM at average cost
1 and exchanging 1 BTC-worth (fetched price 1) for 2 XEM, the code leaves
XEM at average cost 1 — it computes
`(price * amount + buy_rate) * Amount / (amount + Amount)` — while the
sell-then-buy path at the derived rate 1/2 gives the weighted average 2/3. -/
theorem exchange_leg_diverges_from_sell_then_buy :
    (stepTrade unitOracle exTrade tableXEM).1.getD "XEM" = (3, 1) ∧
    ((stepTrade unitOracle (specBuyLeg exTrade 1)
        ((stepTrade unitOracle (specSellLeg exTrade 1) tableXEM).1)).1).getD "XEM"
      = (3, 2 / 3) ∧
    ((3, 1) : ℚ × ℚ) ≠ (3, 2 / 3) := by
  refine ⟨?_, ?_, by norm_num⟩
  · norm_num +decide [stepTrade, applyBuy, Ledger.getD, Ledger.set, emptyLedger,
      exTrade, tableXEM, unitOracle, datePart, takeUntilSpace, strLt,
      charListLt, cutoff]
  · norm_num +decide [stepTrade, applyBuy, Ledger.getD, Ledger.set, emptyLedger,
      exTrade, tableXEM, unitOracle, specBuyLeg, specSellLeg, datePart,
      takeUntilSpace, strLt, charListLt, cutoff]

/-- Claim C6 (corrected), counterexample: a Send event whose price lookup
fails DOES leave a persisted position mutation behind — the quantity update
happens before `get_price` is called — so the halted ledger state differs
from the state after the last successfully processed event. -/
theorem send_price_failure_mutates_state :
    (processTrades noOracle [sendTr] tableBTC []).2.2 =
      some (CalcError.priceUnavailable "2017-09-03" "BTC") ∧
    (processTrades noOracle [sendTr] tableBTC []).2.1 = [] ∧
    (processTrades noOracle [sendTr] tableBTC []).1 "BTC" ≠ tableBTC "BTC" := by
  refine ⟨?_, ?_, ?_⟩ <;>
    norm_num +decide [processTrades, stepTrade, applyBuy, Ledger.getD,
      Ledger.set, emptyLedger, sendTr, tableBTC, noOracle, datePart,
      takeUntilSpace, strLt, charListLt, cutoff]

/-- Claim C6 (amended): a failed price lookup halts processing with a
pricing error and the failing event emits no report row; for Exchange and
Deposit events the ledger is left exactly as it was before the event, but
for a Send event the quantity mutation (delta and fee deduction) is applied
before the lookup and persists in the halted state. -/
theorem price_failure_halts (oracle : Oracle) (table : Ledger) (t : Trade)
    (ts : List Trade) (rows : List Row) (q p : ℚ)
    (hdt : strLt (datePart t.date) cutoff = true)
    (hqp : table.getD t.tradingCurrency = (q, p)) :
    (t.tradeType = "exchange" →
      oracle (datePart t.date) t.originalCurrency = none →
      stepTrade oracle t table =
        (table, [],
         some (CalcError.priceUnavailable (datePart t.date) t.originalCurrency))) ∧
    (t.tradeType = "deposit" →
      oracle (datePart t.date) t.tradingCurrency = none →
      stepTrade oracle t table =
        (table, [],
         some (CalcError.priceUnavailable (datePart t.date) t.tradingCurrency))) ∧
    (t.tradeType = "send" →
      oracle (datePart t.date) t.tradingCurrency = none →
      stepTrade oracle t table =
        (table.set t.tradingCurrency (q + t.amount - t.fee, p), [],
         some (CalcError.priceUnavailable (datePart t.date) t.tradingCurrency))) ∧
    (∀ table1 e, stepTrade oracle t table = (table1, [], some e) →
      processTrades oracle (t :: ts) table rows = (table1, rows, some e)) := by
  refine ⟨?_, ?_, ?_, ?_⟩
  · intro hty hor; simp [stepTrade, hty, hdt, hor]
  · intro hty hor; simp [stepTrade, hty, hdt, hor]
  · intro hty hor; simp [stepTrade, hty, hdt, hor, hqp]
  · intro table1 e hstep
    simp [processTrades, hstep]

/-- Witness for the amended C6 at a concrete input: the failing send halts
the run with the mutated position persisted and no row emitted. -/
theorem price_failure_halts_witness :
    processTrades noOracle [sendTr] tableBTC [] =
      (tableBTC.set sendTr.tradingCurrency (1 + sendTr.amount - sendTr.fee, 5),
       [], some (CalcError.priceUnavailable (datePart sendTr.date)
         sendTr.tradingCurrency)) := by
  have h := price_failure_halts noOracle tableBTC sendTr [] [] 1 5 (by decide) rfl
  exact h.2.2.2 _ _ (h.2.2.1 rfl rfl)

/-- Unfolding of the processor loop over a successfully processed event. -/
theorem processTrades_cons_ok (oracle : Oracle) (t : Trade) (ts : List Trade)
    (table table1 : Ledger) (rows newRows : List Row)
    (h : stepTrade oracle t table = (table1, newRows, none)) :
    processTrades oracle (t :: ts) table rows =
      processTrades oracle ts table1 (rows ++ newRows) := by
  simp [processTrades, h]

/-- Unfolding of the processor loop over a failing event: the loop stops. -/
theorem processTrades_cons_err (oracle : Oracle) (t : Trade) (ts : List Trade)
    (table table1 : Ledger) (rows newRows : List Row) (e : CalcError)
    (h : stepTrade oracle t table = (table1, newRows, some e)) :
    processTrades oracle (t :: ts) table rows = (table1, rows ++ newRows, some e) := by
  simp [processTrades, h]

/-- Reduction of the buy branch when the denominator is nonzero. -/
theorem stepTrade_buy_ok (oracle : Oracle) (t : Trade) (table : Ledger) (q p : ℚ)
    (hty : t.tradeType = "buy") (hdt : strLt (datePart t.date) cutoff = true)
    (hqp : table.getD t.tradingCurrency = (q, p)) (hden : q + t.amount ≠ 0) :
    stepTrade oracle t table =
      (table.set t.tradingCurrency
        (q + t.amount, (p * q + t.rate * t.amount) / (q + t.amount)),
       [{ order := t.order, currency := t.tradingCurrency, action := "buy",
          date := datePart t.date, amount := q + t.amount,
          price := (p * q + t.rate * t.amount) / (q + t.amount), profit := none }],
       none) := by
  simp [stepTrade, hty, hdt, hqp, applyBuy, hden]

/-- The processor on a run of pure accumulation events on one currency: no
error, and the position accumulates the weighted average. -/
theorem processTrades_buys (oracle : Oracle) (c : String) (ts : List Trade) :
    ∀ (table : Ledger) (rows : List Row) (q p : ℚ),
      table.getD c = (q, p) → 0 ≤ q →
      (∀ t ∈ ts, t.tradeType = "buy" ∧ t.tradingCurrency = c ∧ 0 < t.amount ∧
        strLt (datePart t.date) cutoff = true) →
      (processTrades oracle ts table rows).2.2 = none ∧
      (processTrades oracle ts table rows).1.getD c =
        (q + sumDeltas ts,
         if ts.isEmpty then p
         else (p * q + weightedSum ts) / (q + sumDeltas ts)) := by
  induction ts with
  | nil =>
    intro table rows q p hqp _ _
    simp [processTrades, sumDeltas, hqp]
  | cons t ts ih =>
    intro table rows q p hqp hq hall
    obtain ⟨hty, hc, hpos, hdt⟩ := hall t (List.mem_cons_self t ts)
    have hden : q + t.amount ≠ 0 := by
      have : 0 < q + t.amount := by linarith
      exact ne_of_gt this
    have hstep := stepTrade_buy_ok oracle t table q p hty hdt
      (by rw [hc]; exact hqp) hden
    rw [processTrades_cons_ok oracle t ts table _ rows _ hstep]
    have hqp1 :
        (table.set t.tradingCurrency
          (q + t.amount, (p * q + t.rate * t.amount) / (q + t.amount))).getD c =
        (q + t.amount, (p * q + t.rate * t.amount) / (q + t.amount)) := by
      rw [hc]; exact Ledger.getD_set_self table c _
    obtain ⟨he, hgd⟩ := ih _ _ (q + t.amount)
      ((p * q + t.rate * t.amount) / (q + t.amount)) hqp1 (by linarith)
      (fun u hu => hall u (List.mem_cons_of_mem t hu))
    refine ⟨he, ?_⟩
    rw [hgd]
    have hS : sumDeltas (t :: ts) = t.amount + sumDeltas ts := by
      simp [sumDeltas]
    have hW : weightedSum (t :: ts) = t.rate * t.amount + weightedSum ts := by
      simp [weightedSum]
    rcases ts with _ | ⟨t2, ts2⟩
    · simp [sumDeltas, weightedSum, Prod.ext_iff]
    · rw [Prod.ext_iff]
      constructor
      · simp only [sumDeltas, List.map_cons, List.sum_cons]
        ring
      · rw [if_neg (by simp : ¬((t2 :: ts2 : List Trade).isEmpty = true)),
            if_neg (by simp : ¬((t :: t2 :: ts2 : List Trade).isEmpty = true)),
            div_mul_cancel₀ _ hden]
        simp only [sumDeltas, weightedSum, List.map_cons, List.sum_cons]
        ring

/-- Claim C4: each accumulation step computes the weighted average and the
summed quantity, and a run of pure Buy events on one asset from the empty
ledger ends with quantity equal to the sum of all deltas and average cost
equal to the quantity-weighted mean of all unit rates. -/
theorem pure_accumulation_weighted_mean (oracle : Oracle) (c : String)
    (ts : List Trade)
    (hall : ∀ t ∈ ts, t.tradeType = "buy" ∧ t.tradingCurrency = c ∧
      0 < t.amount ∧ strLt (datePart t.date) cutoff = true) :
    (∀ q p rate δ : ℚ, q + δ ≠ 0 →
      applyBuy (q, p) rate δ = some (q + δ, (p * q + rate * δ) / (q + δ))) ∧
    (processTrades oracle ts emptyLedger []).2.2 = none ∧
    (processTrades oracle ts emptyLedger []).1.getD c =
      (sumDeltas ts, weightedSum ts / sumDeltas ts) := by
  obtain ⟨he, hgd⟩ := processTrades_buys oracle c ts emptyLedger [] 0 0 rfl
    le_rfl hall
  refine ⟨fun q p rate δ hδ => by simp [applyBuy, hδ], he, ?_⟩
  rw [hgd]
  rcases ts with _ | ⟨t, ts⟩
  · simp [sumDeltas, weightedSum]
  · rw [if_neg (by simp : ¬((t :: ts : List Trade).isEmpty = true))]
    rw [Prod.ext_iff]
    constructor
    · simp
    · simp only []
      rw [mul_zero, zero_add, zero_add]

/-- Witness for C4 at a concrete input: two buys of 1 BTC at rate 2 and
3 BTC at rate 4 end with quantity 4 and weighted mean (2*1 + 4*3)/4 = 7/2. -/
theorem pure_accumulation_weighted_mean_witness :
    (processTrades noOracle [tA, tB] emptyLedger []).2.2 = none ∧
    (processTrades noOracle [tA, tB] emptyLedger []).1.getD "BTC" =
      (sumDeltas [tA, tB], weightedSum [tA, tB] / sumDeltas [tA, tB]) := by
  have h := pure_accumulation_weighted_mean noOracle "BTC" [tA, tB] (by
    intro t ht
    simp only [List.mem_cons, List.not_mem_nil, or_false] at ht
    rcases ht with rfl | rfl <;> exact ⟨rfl, rfl, by norm_num [tA, tB], by decide⟩)
  exact ⟨h.2.1, h.2.2⟩

/-- Every row emitted while processing one event is dated before the
cutoff. -/
theorem stepTrade_rows_date (oracle : Oracle) (t : Trade) (table : Ledger)
    (r : Row) (hr : r ∈ (stepTrade oracle t table).2.1) :
    strLt r.date cutoff = true := by
  by_cases hdt : strLt (datePart t.date) cutoff = false
  · rw [stepTrade_skip oracle t table hdt] at hr
    simp at hr
  · have hd : strLt (datePart t.date) cutoff = true := by
      revert hdt
      cases strLt (datePart t.date) cutoff <;> simp
    simp only [stepTrade] at hr
    repeat' split at hr
    all_goals
      first
        | exact absurd hr (List.not_mem_nil r)
        | (dsimp only [] at hr
           simp only [List.mem_cons, List.not_mem_nil, or_false] at hr
           (rcases hr with rfl | rfl) <;> simpa using hd)

/-- Every row accumulated by the processor from a row list dated before the
cutoff is itself dated before the cutoff. -/
theorem processTrades_rows_date (oracle : Oracle) :
    ∀ (ts : List Trade) (table : Ledger) (rows : List Row),
      (∀ r ∈ rows, strLt r.date cutoff = true) →
      ∀ r ∈ (processTrades oracle ts table rows).2.1, strLt r.date cutoff = true := by
  intro ts
  induction ts with
  | nil =>
    intro table rows hrows r hr
    exact hrows r (by simpa [processTrades] using hr)
  | cons t ts ih =>
    intro table rows hrows r hr
    have happ : ∀ s ∈ rows ++ (stepTrade oracle t table).2.1,
        strLt s.date cutoff = true := by
      intro s hs
      rcases List.mem_append.mp hs with h | h
      · exact hrows s h
      · exact stepTrade_rows_date oracle t table s h
    rcases hstep : stepTrade oracle t table with ⟨table1, newRows, e⟩
    have happ1 : ∀ s ∈ rows ++ newRows, strLt s.date cutoff = true := by
      simpa [hstep] using happ
    rcases e with _ | e
    · rw [processTrades_cons_ok oracle t ts table table1 rows newRows hstep] at hr
      exact ih table1 (rows ++ newRows) happ1 r hr
    · rw [processTrades_cons_err oracle t ts table table1 rows newRows e hstep] at hr
      exact happ1 r hr

/-- The processor is insensitive to events at or past the cutoff: running on
the full list equals running on the pre-cutoff sublist. -/
theorem processTrades_filter_cutoff (oracle : Oracle) :
    ∀ (ts : List Trade) (table : Ledger) (rows : List Row),
      processTrades oracle ts table rows =
        processTrades oracle
          (ts.filter fun u => strLt (datePart u.date) cutoff) table rows := by
  intro ts
  induction ts with
  | nil => intro table rows; rfl
  | cons t ts ih =>
    intro table rows
    by_cases hdt : strLt (datePart t.date) cutoff = true
    · rw [List.filter_cons_of_pos (by simpa using hdt)]
      rcases hstep : stepTrade oracle t table with ⟨table1, newRows, e⟩
      rcases e with _ | e
      · rw [processTrades_cons_ok oracle t ts table table1 rows newRows hstep,
            processTrades_cons_ok oracle t
              (ts.filter fun u => strLt (datePart u.date) cutoff) table table1
              rows newRows hstep]
        exact ih table1 (rows ++ newRows)
      · rw [processTrades_cons_err oracle t ts table table1 rows newRows e hstep,
            processTrades_cons_err oracle t
              (ts.filter fun u => strLt (datePart u.date) cutoff) table table1
              rows newRows e hstep]
    · have hdt' : strLt (datePart t.date) cutoff = false := by
        revert hdt
        cases strLt (datePart t.date) cutoff <;> simp
      rw [List.filter_cons_of_neg (by simp [hdt'])]
      rw [processTrades_cons_ok oracle t ts table table rows []
        (stepTrade_skip oracle t table hdt')]
      rw [List.append_nil]
      exact ih table rows

/-- Claim C8: with the hardcoded cutoff 2018-01-01, no emitted report row is
dated at or past the cutoff, and the whole run (final ledger included) is
identical to a run over only the events dated strictly before the cutoff. -/
theorem cutoff_filters_events (oracle : Oracle) (ts : List Trade) :
    (∀ r ∈ (processTrades oracle ts emptyLedger []).2.1,
      strLt r.date cutoff = true) ∧
    processTrades oracle ts emptyLedger [] =
      processTrades oracle
        (ts.filter fun u => strLt (datePart u.date) cutoff) emptyLedger [] :=
  ⟨processTrades_rows_date oracle ts emptyLedger [] (by simp),
   processTrades_filter_cutoff oracle ts emptyLedger []⟩

/-- Witness for C8 at a concrete input: the row emitted for the buy `tA` is
dated before the cutoff. -/
theorem cutoff_filters_events_witness : strLt rowA.date cutoff = true :=
  (cutoff_filters_events noOracle [tA]).1 rowA (by
    norm_num +decide [processTrades, stepTrade, applyBuy, Ledger.getD,
      Ledger.set, emptyLedger, tA, rowA, noOracle, datePart, takeUntilSpace,
      strLt, charListLt, cutoff])

/-- One event writes only the positions of its trading currency and (for
exchange) its original currency; every other key is untouched. -/
theorem stepTrade_frame (oracle : Oracle) (t : Trade) (table : Ledger)
    (k : String) (h1 : k ≠ t.tradingCurrency) (h2 : k ≠ t.originalCurrency) :
    (stepTrade oracle t table).1 k = table k := by
  simp only [stepTrade]
  repeat' split
  all_goals dsimp only []
  all_goals simp [Ledger.set, h1, h2]

/-- A non-exchange event writes only the position of its trading currency. -/
theorem stepTrade_frame_nonexchange (oracle : Oracle) (t : Trade)
    (table : Ledger) (hne : t.tradeType ≠ "exchange") (k : String)
    (h1 : k ≠ t.tradingCurrency) :
    (stepTrade oracle t table).1 k = table k := by
  simp only [stepTrade]
  repeat' split
  all_goals dsimp only []
  all_goals simp [Ledger.set, h1]

/-- One event never deletes a position. -/
theorem stepTrade_isSome (oracle : Oracle) (t : Trade) (table : Ledger)
    (k : String) (h : (table k).isSome = true) :
    ((stepTrade oracle t table).1 k).isSome = true := by
  simp only [stepTrade]
  repeat' split
  all_goals dsimp only []
  all_goals (repeat' apply Ledger.isSome_set)
  all_goals exact h

/-- The whole run never deletes a position. -/
theorem processTrades_isSome (oracle : Oracle) :
    ∀ (ts : List Trade) (table : Ledger) (rows : List Row) (k : String),
      (table k).isSome = true →
      ((processTrades oracle ts table rows).1 k).isSome = true := by
  intro ts
  induction ts with
  | nil =>
    intro table rows k h
    simpa [processTrades] using h
  | cons t ts ih =>
    intro table rows k h
    rcases hstep : stepTrade oracle t table with ⟨table1, newRows, e⟩
    have h1 : (table1 k).isSome = true := by
      have hmono := stepTrade_isSome oracle t table k h
      rw [hstep] at hmono
      exact hmono
    rcases e with _ | e
    · rw [processTrades_cons_ok oracle t ts table table1 rows newRows hstep]
      exact ih table1 (rows ++ newRows) k h1
    · rw [processTrades_cons_err oracle t ts table table1 rows newRows e hstep]
      exact h1

/-- Claim C10: every event mutates only the position of its own trading
currency and, for an exchange, the disposed original currency; all other
positions are untouched by the step, an existing position survives every
step, and no position is ever removed over a whole run. -/
theorem event_frame_and_persistence (oracle : Oracle) (t : Trade)
    (table : Ledger) (ts : List Trade) (rows : List Row) :
    (∀ k, k ≠ t.tradingCurrency → k ≠ t.originalCurrency →
      (stepTrade oracle t table).1 k = table k) ∧
    (t.tradeType ≠ "exchange" → ∀ k, k ≠ t.tradingCurrency →
      (stepTrade oracle t table).1 k = table k) ∧
    (∀ k, (table k).isSome = true →
      ((stepTrade oracle t table).1 k).isSome = true) ∧
    (∀ k, (table k).isSome = true →
      ((processTrades oracle ts table rows).1 k).isSome = true) :=
  ⟨fun k h1 h2 => stepTrade_frame oracle t table k h1 h2,
   fun hne k h1 => stepTrade_frame_nonexchange oracle t table hne k h1,
   fun k h => stepTrade_isSome oracle t table k h,
   fun k h => processTrades_isSome oracle ts table rows k h⟩

/-- Witness for C10 at concrete inputs: the send of BTC leaves the XEM key
untouched and the BTC position present, over the step and the whole run. -/
theorem event_frame_and_persistence_witness :
    (stepTrade noOracle sendTr tableBTC).1 "XEM" = tableBTC "XEM" ∧
    (stepTrade noOracle sendTr tableBTC).1 "JPY" = tableBTC "JPY" ∧
    ((stepTrade noOracle sendTr tableBTC).1 "BTC").isSome = true ∧
    ((processTrades noOracle [sendTr] tableBTC []).1 "BTC").isSome = true := by
  have h := event_frame_and_persistence noOracle sendTr tableBTC [sendTr] []
  exact ⟨h.1 "XEM" (by decide) (by decide), h.2.1 (by decide) "JPY" (by decide),
    h.2.2.1 "BTC" (by decide), h.2.2.2 "BTC" (by decide)⟩

end CcPl
